import Mathlib

/-!
Verification development for the TAI3 test-generation repository.

The Python sources are shallowly embedded: pure functions become Lean
functions, external calls (LLM, embedding backend, vector-DB engine,
`json.loads`) become oracle parameters, and Python `float` vectors are
modelled as lists of rationals (no claim here depends on floating-point
rounding).  Python `dict` (3.7+) insertion-order semantics are modelled
explicitly by ordered association lists.
-/

namespace TAI3

/-- Embedding vectors (Python `List[float]`). -/
abbrev Vec := List Rat

/-! ### Python dict primitives

Python 3.7+ dicts preserve insertion order; `d[k] = v` replaces the value in
place when the key exists (keeping its position) and appends otherwise;
`next(iter(d))` yields the first (oldest-inserted) key. -/

/-- Python `d.get(k)` on an insertion-ordered dict. -/
def dictGet (entries : List (String × Vec)) (k : String) : Option Vec :=
  match entries with
  | [] => none
  | (k2, v) :: rest => if k2 = k then some v else dictGet rest k

/-- Python `d[k] = v` on an insertion-ordered dict. -/
def dictInsert (entries : List (String × Vec)) (k : String) (v : Vec) :
    List (String × Vec) :=
  match entries with
  | [] => [(k, v)]
  | (k2, v2) :: rest =>
    if k2 = k then (k2, v) :: rest else (k2, v2) :: dictInsert rest k v

/-! ### EmbeddingCache (app/services/embedding.py, lines 31-81)

`_get_cache_key` is the md5 hex digest of the utf-8 encoded text; md5 itself
is outside the model, so the key function is an abstract parameter `keyFn`
(claims that need distinct keys for distinct texts state that explicitly,
mirroring the code's reliance on md5 being collision-free in practice). -/

structure EmbeddingCache where
  cache : List (String × Vec)
  max_size : Nat
  hits : Nat
  misses : Nat
deriving DecidableEq

/-- `EmbeddingCache.__init__(max_size)`: empty dict, zeroed counters. -/
def EmbeddingCache.init (max_size : Nat) : EmbeddingCache :=
  { cache := [], max_size := max_size, hits := 0, misses := 0 }

/-- `EmbeddingCache.get` (lines 45-55): hash the text, look it up, bump the
hit or miss counter. -/
def EmbeddingCache.get (keyFn : String → String) (c : EmbeddingCache)
    (text : String) : Option Vec × EmbeddingCache :=
  let key := keyFn text
  match dictGet c.cache key with
  | some v => (some v, { c with hits := c.hits + 1 })
  | none => (none, { c with misses := c.misses + 1 })

/-- `EmbeddingCache.set` (lines 57-69): if the dict is at (or above) capacity,
pop the first (oldest-inserted) key, then insert under the hashed key.
(With `max_size = 0` and an empty dict Python's `next(iter(...))` would raise
`StopIteration`; every claim below assumes `max_size ≥ 1`, where the popped
dict is provably non-empty.) -/
def EmbeddingCache.set (keyFn : String → String) (c : EmbeddingCache)
    (text : String) (embedding : Vec) : EmbeddingCache :=
  let key := keyFn text
  let entries := if c.max_size ≤ c.cache.length then c.cache.tail else c.cache
  { c with cache := dictInsert entries key embedding }

/-- Sequentially `set` a list of (text, embedding) pairs. -/
def setAll (keyFn : String → String) (items : List (String × Vec))
    (c : EmbeddingCache) : EmbeddingCache :=
  match items with
  | [] => c
  | (t, v) :: rest => setAll keyFn rest (c.set keyFn t v)

/-- A get or a set, for stating invariants over arbitrary operation
sequences. -/
inductive CacheOp where
  | get (text : String)
  | set (text : String) (v : Vec)

/-- Run one cache operation. -/
def applyOp (keyFn : String → String) (c : EmbeddingCache) : CacheOp → EmbeddingCache
  | .get t => (c.get keyFn t).2
  | .set t v => c.set keyFn t v

/-- Run a sequence of cache operations from left to right. -/
def applyOps (keyFn : String → String) (ops : List CacheOp)
    (c : EmbeddingCache) : EmbeddingCache :=
  ops.foldl (applyOp keyFn) c

/-! ### Association-list lemmas -/

lemma dictGet_of_not_mem {l : List (String × Vec)} {k : String}
    (h : k ∉ l.map Prod.fst) : dictGet l k = none := by
  induction l with
  | nil => rfl
  | cons p rest ih =>
    obtain ⟨k2, v⟩ := p
    simp only [List.map_cons, List.mem_cons, not_or] at h
    have hne : ¬(k2 = k) := fun hc => h.1 hc.symm
    simp only [dictGet, if_neg hne]
    exact ih h.2

lemma dictGet_of_mem_nodup {l : List (String × Vec)} {k : String} {v : Vec}
    (hnd : (l.map Prod.fst).Nodup) (hmem : (k, v) ∈ l) :
    dictGet l k = some v := by
  induction l with
  | nil => cases hmem
  | cons p rest ih =>
    obtain ⟨k2, v2⟩ := p
    simp only [List.map_cons, List.nodup_cons] at hnd
    rcases List.mem_cons.mp hmem with h | h
    · injection h with h1 h2
      subst h1; subst h2
      simp [dictGet]
    · have hk2 : ¬(k2 = k) := by
        intro he
        subst he
        exact hnd.1 (List.mem_map.mpr ⟨(k2, v), h, rfl⟩)
      simp only [dictGet, if_neg hk2]
      exact ih hnd.2 h

lemma dictInsert_of_not_mem {l : List (String × Vec)} {k : String} {v : Vec}
    (h : k ∉ l.map Prod.fst) : dictInsert l k v = l ++ [(k, v)] := by
  induction l with
  | nil => rfl
  | cons p rest ih =>
    obtain ⟨k2, v2⟩ := p
    simp only [List.map_cons, List.mem_cons, not_or] at h
    have hne : ¬(k2 = k) := fun hc => h.1 hc.symm
    simp only [dictInsert, if_neg hne, List.cons_append]
    rw [ih h.2]

lemma dictInsert_keys_of_mem {l : List (String × Vec)} {k : String} {v : Vec}
    (h : k ∈ l.map Prod.fst) :
    (dictInsert l k v).map Prod.fst = l.map Prod.fst := by
  induction l with
  | nil => cases h
  | cons p rest ih =>
    obtain ⟨k2, v2⟩ := p
    by_cases hk : k2 = k
    · simp [dictInsert, hk]
    · simp only [List.map_cons, List.mem_cons] at h
      rcases h with h | h
      · exact absurd h.symm hk
      · simp only [dictInsert, if_neg hk, List.map_cons, ih h]

lemma dictInsert_length_of_mem {l : List (String × Vec)} {k : String} {v : Vec}
    (h : k ∈ l.map Prod.fst) :
    (dictInsert l k v).length = l.length := by
  have := dictInsert_keys_of_mem (l := l) (k := k) (v := v) h
  have h1 : (dictInsert l k v).length = ((dictInsert l k v).map Prod.fst).length := by
    simp
  rw [h1, this, List.length_map]

lemma dictInsert_length_le {l : List (String × Vec)} {k : String} {v : Vec} :
    (dictInsert l k v).length ≤ l.length + 1 := by
  induction l with
  | nil => simp [dictInsert]
  | cons p rest ih =>
    obtain ⟨k2, v2⟩ := p
    by_cases hk : k2 = k
    · simp [dictInsert, hk]
    · simp only [dictInsert, if_neg hk, List.length_cons]
      omega

lemma dictGet_dictInsert_self (l : List (String × Vec)) (k : String) (v : Vec) :
    dictGet (dictInsert l k v) k = some v := by
  induction l with
  | nil => simp [dictInsert, dictGet]
  | cons p rest ih =>
    obtain ⟨k2, v2⟩ := p
    by_cases hk : k2 = k
    · simp [dictInsert, dictGet, hk]
    · simp only [dictInsert, if_neg hk, dictGet, if_neg hk, ih]

/-! ### Cache behaviour lemmas -/

lemma set_cache_of_fresh_under_capacity {keyFn : String → String}
    {c : EmbeddingCache} {t : String} {v : Vec}
    (hlen : c.cache.length < c.max_size) :
    (c.set keyFn t v).cache = dictInsert c.cache (keyFn t) v := by
  have hno : ¬(c.max_size ≤ c.cache.length) := by omega
  simp [EmbeddingCache.set, hno]

lemma set_max_size (keyFn : String → String) (c : EmbeddingCache) (t : String)
    (v : Vec) : (c.set keyFn t v).max_size = c.max_size := rfl

lemma setAll_max_size (keyFn : String → String) (items : List (String × Vec)) :
    ∀ c : EmbeddingCache, (setAll keyFn items c).max_size = c.max_size := by
  induction items with
  | nil => intro c; rfl
  | cons p rest ih =>
    intro c
    obtain ⟨t, v⟩ := p
    rw [setAll, ih, set_max_size]

lemma setAll_cache_of_fresh (keyFn : String → String) :
    ∀ (items : List (String × Vec)) (c : EmbeddingCache),
      ((items.map fun p => keyFn p.1).Nodup) →
      (∀ p ∈ items, keyFn p.1 ∉ c.cache.map Prod.fst) →
      c.cache.length + items.length ≤ c.max_size →
      (setAll keyFn items c).cache
        = c.cache ++ items.map fun p => (keyFn p.1, p.2) := by
  intro items
  induction items with
  | nil => intro c _ _ _; simp [setAll]
  | cons p rest ih =>
    intro c hnd hfresh hcap
    obtain ⟨t, v⟩ := p
    simp only [List.map_cons, List.nodup_cons] at hnd
    simp only [List.length_cons] at hcap
    have hfresh0 : keyFn t ∉ c.cache.map Prod.fst := hfresh (t, v) (List.mem_cons_self _ _)
    have hlen : c.cache.length < c.max_size := by omega
    have hset : (c.set keyFn t v).cache = c.cache ++ [(keyFn t, v)] := by
      rw [set_cache_of_fresh_under_capacity hlen, dictInsert_of_not_mem hfresh0]
    rw [setAll, ih (c.set keyFn t v)
      hnd.2
      (by
        intro q hq
        rw [hset]
        simp only [List.map_append, List.mem_append, List.map_cons, List.map_nil,
          List.mem_singleton, not_or]
        refine ⟨hfresh q (List.mem_cons_of_mem _ hq), ?_⟩
        intro he
        exact hnd.1 (he ▸ List.mem_map.mpr ⟨q, hq, rfl⟩))
      (by rw [hset, set_max_size]; simp; omega)]
    rw [hset]
    simp

/-- Claim C5: the embedding cache evicts in insertion (FIFO) order: after
inserting `max_size + 1` texts whose cache keys are pairwise distinct into a
fresh cache, a `get` on the very first inserted text misses, while a `get` on
each of the other `max_size` texts hits and returns its stored vector. -/
theorem cache_fifo_eviction (keyFn : String → String) (M : Nat) (hM : 1 ≤ M)
    (first : String × Vec) (rest : List (String × Vec))
    (hlen : rest.length = M)
    (hnd : (((first :: rest).map fun p => keyFn p.1)).Nodup) :
    ((setAll keyFn (first :: rest) (EmbeddingCache.init M)).get keyFn first.1).1 = none ∧
    ∀ p ∈ rest, ((setAll keyFn (first :: rest) (EmbeddingCache.init M)).get keyFn p.1).1
      = some p.2 := by
  have hrne : rest ≠ [] := by
    intro h; rw [h] at hlen; simp at hlen; omega
  obtain ⟨body, last, hsplit⟩ : ∃ body last, rest = body ++ [last] :=
    ⟨rest.dropLast, rest.getLast hrne, (rest.dropLast_append_getLast hrne).symm⟩
  have hbodylen : body.length + 1 = M := by
    rw [hsplit] at hlen; simpa using hlen
  -- the cache contents after all max_size + 1 inserts
  have hfill : (setAll keyFn (first :: body) (EmbeddingCache.init M)).cache
      = (first :: body).map fun p => (keyFn p.1, p.2) := by
    have := setAll_cache_of_fresh keyFn (first :: body) (EmbeddingCache.init M)
      (by
        rw [hsplit] at hnd
        have : ((first :: body).map fun p => keyFn p.1).Sublist
            (((first :: body) ++ [last]).map fun p => keyFn p.1) := by
          simp only [List.map_append]
          exact (List.sublist_append_left _ _)
        exact this.nodup (by simpa using hnd))
      (by intro q hq; simp [EmbeddingCache.init])
      (by simp [EmbeddingCache.init]; omega)
    simpa [EmbeddingCache.init] using this
  have hmax : (setAll keyFn (first :: body) (EmbeddingCache.init M)).max_size = M := by
    rw [setAll_max_size]; rfl
  have hfulllen : (setAll keyFn (first :: body) (EmbeddingCache.init M)).cache.length = M := by
    rw [hfill]; simp; omega
  have hlastfresh :
      keyFn last.1 ∉ (((first :: body)).map fun p => (keyFn p.1, p.2)).map Prod.fst := by
    rw [hsplit] at hnd
    intro hmem
    simp only [List.map_map, List.map_cons] at hmem
    have hnd2 : ((first :: (body ++ [last])).map fun p => keyFn p.1).Nodup := hnd
    simp only [List.map_cons, List.map_append, List.map_cons, List.map_nil] at hnd2
    rcases List.mem_cons.mp hmem with h | h
    · exact (List.nodup_cons.mp hnd2).1 (by
        simp only [List.mem_append, List.mem_singleton]
        right; exact h.symm)
    · have := (List.nodup_cons.mp hnd2).2
      have hdisj := List.disjoint_of_nodup_append this
      exact hdisj (by simpa using h) (by simp)
  have hfinal : (setAll keyFn (first :: rest) (EmbeddingCache.init M)).cache
      = rest.map fun p => (keyFn p.1, p.2) := by
    have hassoc : first :: rest = (first :: body) ++ [last] := by
      rw [hsplit]; rfl
    have hsetapp : ∀ (l1 l2 : List (String × Vec)) (c : EmbeddingCache),
        setAll keyFn (l1 ++ l2) c = setAll keyFn l2 (setAll keyFn l1 c) := by
      intro l1
      induction l1 with
      | nil => intro l2 c; rfl
      | cons q qs ih =>
        intro l2 c
        obtain ⟨t, v⟩ := q
        simp only [List.cons_append, setAll]
        exact ih l2 _
    rw [hassoc, hsetapp]
    set cfull := setAll keyFn (first :: body) (EmbeddingCache.init M) with hcfull
    show (setAll keyFn [last] cfull).cache = _
    obtain ⟨tl, vl⟩ := last
    simp only [setAll]
    have hatcap : cfull.max_size ≤ cfull.cache.length := by
      rw [hmax, hfulllen]
    have hsetlast : (cfull.set keyFn tl vl).cache
        = dictInsert cfull.cache.tail (keyFn tl) vl := by
      simp [EmbeddingCache.set, hatcap]
    rw [hsetlast, hfill]
    have htail : (((first :: body)).map fun p => (keyFn p.1, p.2)).tail
        = body.map fun p => (keyFn p.1, p.2) := by
      simp
    rw [htail, dictInsert_of_not_mem (by
      intro hmem
      exact hlastfresh (by
        simp only [List.map_cons, List.map_map]
        simp only [List.map_map] at hmem
        exact List.mem_cons_of_mem _ hmem))]
    rw [hsplit]
    simp
  constructor
  · -- the first inserted text now misses
    simp only [EmbeddingCache.get, hfinal]
    rw [dictGet_of_not_mem]
    · rw [hsplit] at hnd ⊢
      intro hmem
      simp only [List.map_map] at hmem
      simp only [List.map_cons, List.nodup_cons] at hnd
      exact hnd.1 (by simpa using hmem)
  · -- every later text still hits with its stored vector
    intro p hp
    simp only [EmbeddingCache.get, hfinal]
    rw [dictGet_of_mem_nodup]
    · simp only [List.map_map]
      have : (rest.map fun p => keyFn p.1).Nodup := by
        simp only [List.map_cons, List.nodup_cons] at hnd
        exact hnd.2
      simpa using this
    · exact List.mem_map.mpr ⟨p, hp, rfl⟩

/-- Witness for C5 at `max_size = 2` with three concretely keyed texts. -/
theorem cache_fifo_eviction_witness :
    (1 ≤ 2 ∧
      ((([("a", [(1 : Rat)]), ("b", [(2 : Rat)]), ("c", [(3 : Rat)])].map
        fun p => id p.1)).Nodup)) ∧
    ((setAll id [("a", [(1 : Rat)]), ("b", [2]), ("c", [3])]
        (EmbeddingCache.init 2)).get id "a").1 = none ∧
    ∀ p ∈ [("b", [(2 : Rat)]), ("c", [3])],
      ((setAll id [("a", [(1 : Rat)]), ("b", [2]), ("c", [3])]
        (EmbeddingCache.init 2)).get id p.1).1 = some p.2 :=
  ⟨⟨by omega, by decide⟩,
    cache_fifo_eviction id 2 (by omega) ("a", [(1 : Rat)]) [("b", [2]), ("c", [3])]
      (by decide) (by decide)⟩

lemma get_cache_eq (keyFn : String → String) (c : EmbeddingCache) (t : String) :
    ((c.get keyFn t).2).cache = c.cache := by
  cases h : dictGet c.cache (keyFn t) <;> simp [EmbeddingCache.get, h]

lemma get_max_size_eq (keyFn : String → String) (c : EmbeddingCache) (t : String) :
    ((c.get keyFn t).2).max_size = c.max_size := by
  cases h : dictGet c.cache (keyFn t) <;> simp [EmbeddingCache.get, h]

lemma set_length_le {keyFn : String → String} {c : EmbeddingCache} {t : String}
    {v : Vec} (hM : 1 ≤ c.max_size) (hinv : c.cache.length ≤ c.max_size) :
    (c.set keyFn t v).cache.length ≤ c.max_size := by
  unfold EmbeddingCache.set
  by_cases hfull : c.max_size ≤ c.cache.length
  · have hlen : c.cache.length = c.max_size := le_antisymm hinv hfull
    have hne : c.cache ≠ [] := by
      intro h
      rw [h] at hlen
      simp at hlen
      omega
    have htl : c.cache.tail.length = c.cache.length - 1 := by
      simp
    simp only [if_pos hfull]
    calc (dictInsert c.cache.tail (keyFn t) v).length
        ≤ c.cache.tail.length + 1 := dictInsert_length_le
      _ ≤ c.max_size := by rw [htl]; omega
  · have hlt : c.cache.length < c.max_size := by omega
    simp only [if_neg hfull]
    calc (dictInsert c.cache (keyFn t) v).length
        ≤ c.cache.length + 1 := dictInsert_length_le
      _ ≤ c.max_size := by omega

lemma applyOps_cons (keyFn : String → String) (op : CacheOp) (rest : List CacheOp)
    (c : EmbeddingCache) :
    applyOps keyFn (op :: rest) c = applyOps keyFn rest (applyOp keyFn c op) := rfl

lemma applyOps_length_le (keyFn : String → String) (ops : List CacheOp) :
    ∀ c : EmbeddingCache, 1 ≤ c.max_size → c.cache.length ≤ c.max_size →
      (applyOps keyFn ops c).cache.length ≤ (applyOps keyFn ops c).max_size ∧
      (applyOps keyFn ops c).max_size = c.max_size := by
  induction ops with
  | nil => intro c h1 h2; exact ⟨h2, rfl⟩
  | cons op rest ih =>
    intro c h1 h2
    rw [applyOps_cons]
    have hstep : (applyOp keyFn c op).max_size = c.max_size := by
      cases op with
      | get t => exact get_max_size_eq keyFn c t
      | set t v => rfl
    have hlen : (applyOp keyFn c op).cache.length ≤ c.max_size := by
      cases op with
      | get t =>
        simp only [applyOp]
        rw [get_cache_eq]
        exact h2
      | set t v => exact set_length_le h1 h2
    have := ih (applyOp keyFn c op) (by rw [hstep]; exact h1) (by rw [hstep]; exact hlen)
    exact ⟨this.1, by rw [this.2, hstep]⟩

/-- Claim C10: (a) starting from an empty cache with `max_size = M ≥ 1`, any
sequence of get/set operations leaves at most `M` stored entries; and (b)
`set` evicts the oldest entry whenever the cache is at capacity even when the
key being written is already present: re-setting a cached text at capacity
removes the oldest (unrelated) entry and overwrites the existing slot in
place — it is not a pure overwrite (the entry count even drops by one). -/
theorem cache_capacity_invariant (keyFn : String → String) (M : Nat) (hM : 1 ≤ M)
    (ops : List CacheOp) (c : EmbeddingCache) (t : String) (v : Vec)
    (oldest : String × Vec) (tl : List (String × Vec))
    (hcap : c.cache.length = c.max_size)
    (hshape : c.cache = oldest :: tl)
    (hnd : (c.cache.map Prod.fst).Nodup)
    (hmem : keyFn t ∈ c.cache.map Prod.fst)
    (hne : oldest.1 ≠ keyFn t) :
    (applyOps keyFn ops (EmbeddingCache.init M)).cache.length ≤ M ∧
    oldest.1 ∉ ((c.set keyFn t v).cache.map Prod.fst) ∧
    dictGet (c.set keyFn t v).cache (keyFn t) = some v ∧
    (c.set keyFn t v).cache.length + 1 = c.cache.length := by
  have hfull : c.max_size ≤ c.cache.length := le_of_eq hcap.symm
  have hmemtl : keyFn t ∈ tl.map Prod.fst := by
    rw [hshape] at hmem
    simp only [List.map_cons, List.mem_cons] at hmem
    rcases hmem with h | h
    · exact absurd h.symm hne
    · exact h
  have hset : (c.set keyFn t v).cache = dictInsert tl (keyFn t) v := by
    unfold EmbeddingCache.set
    rw [if_pos hfull, hshape]
    rfl
  refine ⟨?_, ?_, ?_, ?_⟩
  · have := applyOps_length_le keyFn ops (EmbeddingCache.init M)
      (by simpa [EmbeddingCache.init] using hM) (by simp [EmbeddingCache.init])
    have h2 : (applyOps keyFn ops (EmbeddingCache.init M)).max_size = M := by
      rw [this.2]; rfl
    have h3 := this.1
    omega
  · rw [hset, dictInsert_keys_of_mem hmemtl]
    rw [hshape] at hnd
    simp only [List.map_cons, List.nodup_cons] at hnd
    exact hnd.1
  · rw [hset, dictGet_dictInsert_self]
  · rw [hset, dictInsert_length_of_mem hmemtl, hshape]
    simp

/-- Witness for C10: a two-entry cache at capacity, re-setting the newer key
evicts the older one; plus the invariant for a concrete op sequence. -/
theorem cache_capacity_invariant_witness :
    ((EmbeddingCache.mk [("x", [(1 : Rat)]), ("y", [2])] 2 0 0).cache.length
        = (EmbeddingCache.mk [("x", [(1 : Rat)]), ("y", [2])] 2 0 0).max_size ∧
      (EmbeddingCache.mk [("x", [(1 : Rat)]), ("y", [2])] 2 0 0).cache
        = ("x", [(1 : Rat)]) :: [("y", [2])]) ∧
    (applyOps id [CacheOp.set "x" [1], CacheOp.set "y" [2], CacheOp.set "z" [3]]
      (EmbeddingCache.init 2)).cache.length ≤ 2 ∧
    "x" ∉ (((EmbeddingCache.mk [("x", [(1 : Rat)]), ("y", [2])] 2 0 0).set
      id "y" [9]).cache.map Prod.fst) := by
  refine ⟨⟨by decide, by decide⟩, ?_, ?_⟩
  · exact (cache_capacity_invariant id 2 (by omega)
      [CacheOp.set "x" [1], CacheOp.set "y" [2], CacheOp.set "z" [3]]
      (EmbeddingCache.mk [("x", [(1 : Rat)]), ("y", [2])] 2 0 0)
      "y" [9] ("x", [(1 : Rat)]) [("y", [2])]
      (by decide) (by decide) (by decide) (by decide) (by decide)).1
  · exact (cache_capacity_invariant id 2 (by omega)
      [CacheOp.set "x" [1], CacheOp.set "y" [2], CacheOp.set "z" [3]]
      (EmbeddingCache.mk [("x", [(1 : Rat)]), ("y", [2])] 2 0 0)
      "y" [9] ("x", [(1 : Rat)]) [("y", [2])]
      (by decide) (by decide) (by decide) (by decide) (by decide)).2.1

/-! ### EmbeddingService (app/services/embedding.py, lines 84-256)

The embedding backend (OpenAI / SentenceTransformers behind
`_embed_text_with_retry` and `embed_documents`) is external I/O and is
modelled as an oracle: `none` models the Python call raising (for
`singleEmbed`, raising even after the tenacity retries — the decorator
reraises).  `EMBEDDING_DIMENSIONS` is the config constant `D`. -/

structure Backend where
  batchEmbed : List String → Option (List Vec)
  singleEmbed : String → Option Vec

/-- The `[0.0] * EMBEDDING_DIMENSIONS` placeholder vector. -/
def zeroVec (D : Nat) : Vec := List.replicate D 0

/-- `EmbeddingService.embed_text` (lines 152-165): cache lookup first; on a
miss call the backend (with retry) and store the result in the cache before
returning.  A backend failure propagates (`none`). -/
def embedText (keyFn : String → String) (b : Backend) (c : EmbeddingCache)
    (text : String) : Option Vec × EmbeddingCache :=
  match c.get keyFn text with
  | (some v, c1) => (some v, c1)
  | (none, c1) =>
    match b.singleEmbed text with
    | none => (none, c1)
    | some v => (some v, c1.set keyFn text v)

/-- `EmbeddingService.embed_user_story` (lines 248-251): canonicalize into
the template string and delegate to `embed_text`. -/
def embedUserStory (keyFn : String → String) (b : Backend) (c : EmbeddingCache)
    (title description : String) : Option Vec × EmbeddingCache :=
  embedText keyFn b c ("Title: " ++ title ++ "\nDescription: " ++ description)

/-- The cache-checking pass at the top of `_batch_embed` (lines 177-184):
pair every batch text with its cached vector (or `none`), threading the
hit/miss counters. -/
def cacheScan (keyFn : String → String) :
    EmbeddingCache → List String → List (String × Option Vec) × EmbeddingCache
  | c, [] => ([], c)
  | c, t :: rest =>
    let (r, c1) := c.get keyFn t
    let (l, c2) := cacheScan keyFn c1 rest
    ((t, r) :: l, c2)

/-- `to_embed_texts`: the batch texts that missed the cache, in order. -/
def missTexts (scanned : List (String × Option Vec)) : List String :=
  scanned.filterMap fun p =>
    match p.2 with
    | none => some p.1
    | some _ => none

/-- Store a list of (text, embedding) pairs in the cache, skipping the
texts whose embedding attempt failed (the code never caches the zero-vector
placeholder). -/
def setMany (keyFn : String → String) (c : EmbeddingCache) :
    List (String × Option Vec) → EmbeddingCache
  | [] => c
  | (t, some v) :: rest => setMany keyFn (c.set keyFn t v) rest
  | (_, none) :: rest => setMany keyFn c rest

/-- Rebuild the `results` array of `_batch_embed`: cache hits keep their
vector, misses consume the freshly computed vectors in order.  A missing
vector (impossible in the branches actually taken) is patched with the
zero-vector just as `embed_texts` lines 240-244 patch leftover `None`. -/
def fillMisses (D : Nat) : List (String × Option Vec) → List Vec → List Vec
  | [], _ => []
  | (_, some v) :: rest, vs => v :: fillMisses D rest vs
  | (_, none) :: rest, v :: vs => v :: fillMisses D rest vs
  | (_, none) :: rest, [] => zeroVec D :: fillMisses D rest []

/-- `EmbeddingService._batch_embed` (lines 167-212) on one sub-batch: check
the cache, call the backend batch API for the misses, and on a batch failure
fall back to per-item calls, patching items that still fail with the
zero-vector of dimension `D`.  (If the backend returned fewer embeddings
than requested, the Python assignment loop raises `IndexError` after
caching the first `embs.length` of them and the same `except` branch runs
the per-item fallback for every miss.) -/
def batchEmbedOne (D : Nat) (keyFn : String → String) (b : Backend)
    (c : EmbeddingCache) (batchTexts : List String) :
    List Vec × EmbeddingCache :=
  let (scanned, c1) := cacheScan keyFn c batchTexts
  let toEmbed := missTexts scanned
  if toEmbed.isEmpty then
    (fillMisses D scanned [], c1)
  else
    match b.batchEmbed toEmbed with
    | some embs =>
      if toEmbed.length ≤ embs.length then
        (fillMisses D scanned embs, setMany keyFn c1 (toEmbed.zip (embs.map some)))
      else
        let cPart := setMany keyFn c1 (toEmbed.zip (embs.map some))
        let fb := toEmbed.map fun t => (t, b.singleEmbed t)
        (fillMisses D scanned (fb.map fun p => p.2.getD (zeroVec D)),
          setMany keyFn cPart fb)
    | none =>
      let fb := toEmbed.map fun t => (t, b.singleEmbed t)
      (fillMisses D scanned (fb.map fun p => p.2.getD (zeroVec D)),
        setMany keyFn c1 fb)

/-- Partition into contiguous batches of `batch_size` (the
`range(0, len(texts), batch_size)` loop; `batch_size = 0` raises in Python
and is excluded by hypothesis wherever it matters). -/
def chunks {α : Type} (n : Nat) : List α → List (List α)
  | [] => []
  | x :: xs => (x :: xs.take (n - 1)) :: chunks n (xs.drop (n - 1))
termination_by l => l.length
decreasing_by simp only [List.length_drop, List.length_cons]; omega

/-- `EmbeddingService.embed_texts` (lines 214-246): empty input short-cut,
then process the batches (the thread pool writes each batch's results into
disjoint contiguous index ranges and the futures are collected in submission
order, so the result is the in-order concatenation of the per-batch
results; the shared cache is threaded through in batch order). -/
def embedTexts (D batchSize : Nat) (keyFn : String → String) (b : Backend)
    (c : EmbeddingCache) (texts : List String) : List Vec × EmbeddingCache :=
  if texts.isEmpty then ([], c)
  else
    (chunks batchSize texts).foldl
      (fun acc batch =>
        let (res, c2) := batchEmbedOne D keyFn b acc.2 batch
        (acc.1 ++ res, c2))
      (([] : List Vec), c)

/-! ### Lemmas about batch embedding -/

lemma cacheScan_fst_length (keyFn : String → String) :
    ∀ (ts : List String) (c : EmbeddingCache),
      ((cacheScan keyFn c ts).1).length = ts.length := by
  intro ts
  induction ts with
  | nil => intro c; rfl
  | cons t rest ih =>
    intro c
    rcases hg : c.get keyFn t with ⟨r, c1⟩
    rcases hs : cacheScan keyFn c1 rest with ⟨l, c2⟩
    have hl : l.length = rest.length := by
      have := ih c1
      rw [hs] at this
      simpa using this
    simp only [cacheScan, hg, hs, List.length_cons]
    omega

lemma fillMisses_length (D : Nat) :
    ∀ (scanned : List (String × Option Vec)) (vs : List Vec),
      (fillMisses D scanned vs).length = scanned.length := by
  intro scanned
  induction scanned with
  | nil => intro vs; rfl
  | cons p rest ih =>
    intro vs
    obtain ⟨t, r⟩ := p
    cases r with
    | some v => simp only [fillMisses, List.length_cons, ih]
    | none =>
      cases vs with
      | nil => simp only [fillMisses, List.length_cons, ih]
      | cons v vs2 => simp only [fillMisses, List.length_cons, ih]

lemma fillMisses_of_missTexts (D : Nat) (f : String → Vec) :
    ∀ scanned : List (String × Option Vec),
      fillMisses D scanned ((missTexts scanned).map f)
        = scanned.map fun p =>
            match p.2 with
            | some v => v
            | none => f p.1 := by
  intro scanned
  induction scanned with
  | nil => rfl
  | cons p rest ih =>
    obtain ⟨t, r⟩ := p
    cases r with
    | some v =>
      have hmiss : missTexts ((t, some v) :: rest) = missTexts rest := by
        simp [missTexts]
      rw [hmiss]
      simp only [fillMisses, List.map_cons, ih]
    | none =>
      have hmiss : missTexts ((t, none) :: rest) = t :: missTexts rest := by
        simp [missTexts]
      rw [hmiss, List.map_cons]
      simp only [fillMisses, List.map_cons, ih]

lemma batchEmbedOne_fst_length (D : Nat) (keyFn : String → String) (b : Backend)
    (c : EmbeddingCache) (batchTexts : List String) :
    (batchEmbedOne D keyFn b c batchTexts).1.length = batchTexts.length := by
  rcases hsc : cacheScan keyFn c batchTexts with ⟨scanned, c1⟩
  have hlen : scanned.length = batchTexts.length := by
    have := cacheScan_fst_length keyFn batchTexts c
    rw [hsc] at this
    exact this
  simp only [batchEmbedOne, hsc]
  by_cases hempty : (missTexts scanned).isEmpty
  · simp only [hempty, if_pos]
    simp [fillMisses_length, hlen]
  · simp only [hempty]
    cases hbe : b.batchEmbed (missTexts scanned) with
    | none => simp [fillMisses_length, hlen]
    | some embs =>
      by_cases hle : (missTexts scanned).length ≤ embs.length
      · simp [hle, fillMisses_length, hlen]
      · simp [hle, fillMisses_length, hlen]

lemma chunks_map_length_sum {α : Type} (n : Nat) :
    ∀ (N : Nat) (l : List α), l.length ≤ N →
      ((chunks n l).map List.length).sum = l.length := by
  intro N
  induction N with
  | zero =>
    intro l hl
    have : l = [] := List.eq_nil_of_length_eq_zero (by omega)
    subst this
    simp [chunks]
  | succ N ih =>
    intro l hl
    cases l with
    | nil => simp [chunks]
    | cons x xs =>
      rw [chunks]
      simp only [List.map_cons, List.sum_cons, List.length_cons]
      have hdrop : (xs.drop (n - 1)).length ≤ N := by
        simp only [List.length_drop]
        simp only [List.length_cons] at hl
        omega
      rw [ih _ hdrop]
      simp only [List.length_cons, List.length_take, List.length_drop]
      omega

lemma embedTexts_foldl_length (D : Nat) (keyFn : String → String) (b : Backend) :
    ∀ (bs : List (List String)) (acc : List Vec × EmbeddingCache),
      ((bs.foldl
        (fun acc batch =>
          let (res, c2) := batchEmbedOne D keyFn b acc.2 batch
          (acc.1 ++ res, c2)) acc).1).length
        = acc.1.length + (bs.map List.length).sum := by
  intro bs
  induction bs with
  | nil => intro acc; simp
  | cons batch rest ih =>
    intro acc
    rcases hb : batchEmbedOne D keyFn b acc.2 batch with ⟨res, c2⟩
    have hr : res.length = batch.length := by
      have := batchEmbedOne_fst_length D keyFn b acc.2 batch
      rw [hb] at this
      exact this
    simp only [List.foldl_cons, hb, ih, List.map_cons, List.sum_cons,
      List.length_append]
    omega

/-- Claim C4: `embed_texts` never propagates a per-item backend error and
always returns one vector per input text; and when the backend batch call
raises for a sub-batch, `_batch_embed` falls back to a per-item
`_embed_text_with_retry` for each cache-missing item of that sub-batch,
leaving cache hits untouched and assigning the all-zero vector of the
configured dimension `D` to any item whose fallback also fails. -/
theorem embed_texts_degrade_not_fail
    (D batchSize : Nat) (keyFn : String → String) (b : Backend)
    (texts : List String) (c : EmbeddingCache)
    (batchTexts : List String) (c2 : EmbeddingCache)
    (hfail : b.batchEmbed (missTexts (cacheScan keyFn c2 batchTexts).1) = none) :
    (embedTexts D batchSize keyFn b c texts).1.length = texts.length ∧
    (batchEmbedOne D keyFn b c2 batchTexts).1
      = (cacheScan keyFn c2 batchTexts).1.map (fun p =>
          match p.2 with
          | some v => v
          | none => (b.singleEmbed p.1).getD (zeroVec D)) := by
  constructor
  · by_cases hte : texts.isEmpty
    · have : texts = [] := by
        cases texts with
        | nil => rfl
        | cons x xs => simp at hte
      subst this
      simp [embedTexts]
    · simp only [embedTexts, hte, if_neg, Bool.false_eq_true, not_false_iff]
      rw [embedTexts_foldl_length]
      simp only [List.length_nil, Nat.zero_add]
      exact chunks_map_length_sum batchSize texts.length texts (le_refl _)
  · rcases hsc : cacheScan keyFn c2 batchTexts with ⟨scanned, c1⟩
    rw [hsc] at hfail
    simp only at hfail
    simp only [batchEmbedOne, hsc]
    by_cases hempty : (missTexts scanned).isEmpty
    · have hnone : missTexts scanned = [] := by
        cases h : missTexts scanned with
        | nil => rfl
        | cons x xs => rw [h] at hempty; simp at hempty
      simp only [hempty, if_pos]
      have := fillMisses_of_missTexts D
        (fun t => (b.singleEmbed t).getD (zeroVec D)) scanned
      rw [hnone] at this
      simpa using this
    · simp only [hempty, hfail]
      have hmap : ((missTexts scanned).map fun t => (t, b.singleEmbed t)).map
          (fun p => p.2.getD (zeroVec D))
          = (missTexts scanned).map fun t => (b.singleEmbed t).getD (zeroVec D) := by
        rw [List.map_map]
        rfl
      simp only [hmap]
      exact fillMisses_of_missTexts D (fun t => (b.singleEmbed t).getD (zeroVec D)) scanned

/-- Witness for C4: a backend whose batch call always raises and whose
per-item call succeeds only for the text "ok"; the failed item gets the
zero-vector of dimension 2, the good item its embedding. -/
theorem embed_texts_degrade_not_fail_witness :
    (Backend.mk (fun _ => none) (fun t => if t = "ok" then some [5, 5] else none)).batchEmbed
        (missTexts (cacheScan id (EmbeddingCache.init 10) ["ok", "bad"]).1) = none ∧
    (embedTexts 2 2 id
        (Backend.mk (fun _ => none) (fun t => if t = "ok" then some [5, 5] else none))
        (EmbeddingCache.init 10) ["ok", "bad"]).1.length = (["ok", "bad"] : List String).length ∧
    (batchEmbedOne 2 id
        (Backend.mk (fun _ => none) (fun t => if t = "ok" then some [5, 5] else none))
        (EmbeddingCache.init 10) ["ok", "bad"]).1
      = (cacheScan id (EmbeddingCache.init 10) ["ok", "bad"]).1.map (fun p =>
          match p.2 with
          | some v => v
          | none => ((Backend.mk (fun _ => none)
              (fun t => if t = "ok" then some [5, 5] else none)).singleEmbed p.1).getD
              (zeroVec 2)) := by
  refine ⟨by decide, ?_⟩
  exact embed_texts_degrade_not_fail 2 2 id
    (Backend.mk (fun _ => none) (fun t => if t = "ok" then some [5, 5] else none))
    ["ok", "bad"] (EmbeddingCache.init 10) ["ok", "bad"] (EmbeddingCache.init 10)
    (by decide)

/-- Claim C9: `embed_user_story(T, D)` delegates to `embed_text` on exactly
the template string `"Title: " ++ T ++ "\n" ++ "Description: " ++ D`
(definitional equality, hence byte-identical cache key), and after a
successful `embed_user_story` a direct `embed_text` call on that
byte-identical string is a cache hit: the key maps to the same vector in the
resulting cache, and the call returns that vector whatever the backend
(no backend request is needed). -/
theorem embed_user_story_canonical (keyFn : String → String) (b b2 : Backend)
    (c : EmbeddingCache) (title description : String) (v : Vec)
    (c1 : EmbeddingCache)
    (hrun : embedUserStory keyFn b c title description = (some v, c1)) :
    embedUserStory keyFn b c title description
      = embedText keyFn b c ("Title: " ++ title ++ "\nDescription: " ++ description) ∧
    dictGet c1.cache (keyFn ("Title: " ++ title ++ "\nDescription: " ++ description))
      = some v ∧
    (embedText keyFn b2 c1 ("Title: " ++ title ++ "\nDescription: " ++ description)).1
      = some v := by
  refine ⟨rfl, ?_, ?_⟩
  all_goals {
    have hkey : dictGet c1.cache
        (keyFn ("Title: " ++ title ++ "\nDescription: " ++ description)) = some v := by
      rw [embedUserStory] at hrun
      set t := "Title: " ++ title ++ "\nDescription: " ++ description with ht
      rcases hget : c.get keyFn t with ⟨r, cg⟩
      cases r with
      | some w =>
        rw [embedText, hget] at hrun
        injection hrun with h1 h2
        injection h1 with h1
        subst h1
        subst h2
        have hcg : cg.cache = c.cache := by
          have := get_cache_eq keyFn c t
          rw [hget] at this
          exact this
        rw [hcg]
        have : dictGet c.cache (keyFn t) = some w := by
          simp only [EmbeddingCache.get] at hget
          cases hd : dictGet c.cache (keyFn t) with
          | none => rw [hd] at hget; simp at hget
          | some w2 =>
            rw [hd] at hget
            simp only at hget
            have h3 : w2 = w := by
              have h4 := congrArg Prod.fst hget
              simpa using h4
            rw [h3]
        exact this
      | none =>
        rw [embedText, hget] at hrun
        rcases hbe : b.singleEmbed t with _ | w
        · rw [hbe] at hrun; simp at hrun
        · rw [hbe] at hrun
          injection hrun with h1 h2
          injection h1 with h1
          subst h1
          subst h2
          unfold EmbeddingCache.set
          simp only
          exact dictGet_dictInsert_self _ _ _
    first
    | exact hkey
    | {
      rw [embedText]
      rcases hget2 : c1.get keyFn
          ("Title: " ++ title ++ "\nDescription: " ++ description) with ⟨r2, cg2⟩
      have : r2 = some v := by
        simp only [EmbeddingCache.get] at hget2
        rw [hkey] at hget2
        simp only at hget2
        have h4 := congrArg Prod.fst hget2
        simpa using h4.symm
      subst this
      rfl
    }
  }

/-- Witness for C9: a concrete miss-then-store run whose template string is
then a cache hit even under a backend that always fails. -/
theorem embed_user_story_canonical_witness :
    embedUserStory id (Backend.mk (fun _ => none) (fun _ => some [1]))
        (EmbeddingCache.init 10) "T" "D"
      = (some [1], EmbeddingCache.mk [("Title: T\nDescription: D", [1])] 10 0 1) ∧
    (embedText id (Backend.mk (fun _ => none) (fun _ => none))
        (EmbeddingCache.mk [("Title: T\nDescription: D", [(1 : Rat)])] 10 0 1)
        ("Title: " ++ "T" ++ "\nDescription: " ++ "D")).1 = some [1] :=
  ⟨by decide,
    (embed_user_story_canonical id (Backend.mk (fun _ => none) (fun _ => some [1]))
      (Backend.mk (fun _ => none) (fun _ => none))
      (EmbeddingCache.init 10) "T" "D" [1]
      (EmbeddingCache.mk [("Title: T\nDescription: D", [1])] 10 0 1)
      (by decide)).2.2⟩

/-! ### csv_writer (app/utils/csv_writer.py)

Python strings are modelled as character lists so that `strip`, `split`,
`startswith`, `in`, `isdigit` and `lower` have direct structural
definitions.  `str.strip()` strips Python's default whitespace set; for the
ASCII inputs of these claims the sets agree with the characters below. -/

abbrev PyStr := List Char

/-- Python default whitespace (`str.strip` with no argument). -/
def pySpace (ch : Char) : Bool :=
  ch = ' ' || ch = '\t' || ch = '\n' || ch = '\r' || ch = '\x0b' || ch = '\x0c'

/-- Python `s.strip()`. -/
def pyStrip (s : PyStr) : PyStr :=
  ((s.dropWhile pySpace).reverse.dropWhile pySpace).reverse

/-- Python `s.lower()` (ASCII case mapping). -/
def pyLower (s : PyStr) : PyStr := s.map Char.toLower

/-- Python `s.split(chr(10))`: always at least one piece. -/
def splitNl : PyStr → List PyStr
  | [] => [[]]
  | c :: rest =>
    if c = '\n' then [] :: splitNl rest
    else
      match splitNl rest with
      | [] => [[c]]
      | l :: ls => (c :: l) :: ls

/-- Python `s.startswith(pre)`. -/
def pyStartsWith : PyStr → PyStr → Bool
  | _, [] => true
  | [], _ :: _ => false
  | c :: cs, p :: ps => (c = p) && pyStartsWith cs ps

/-- Python `sub in s` (substring containment). -/
def pyContains : PyStr → PyStr → Bool
  | [], sub => sub.isEmpty
  | c :: rest, sub => pyStartsWith (c :: rest) sub || pyContains rest sub

/-- Python `s.isdigit()` (false on the empty string; ASCII digits). -/
def pyIsDigit (s : PyStr) : Bool := !s.isEmpty && s.all Char.isDigit

/-- Python `line.split(chr(46), 1)` when it produces two parts, i.e. the
text before and after the first dot (`none` when the line has no dot). -/
def splitDotOnce : PyStr → Option (PyStr × PyStr)
  | [] => none
  | c :: rest =>
    if c = '.' then some ([], rest)
    else
      match splitDotOnce rest with
      | none => none
      | some (a, b) => some (c :: a, b)

/-- One parsed step (`{"step": ..., "description": ...}`). -/
structure Step where
  step : PyStr
  description : PyStr
deriving DecidableEq

/-- The structured result of `markdown_to_test_case`. -/
structure ParsedTestCase where
  title : PyStr
  description : PyStr
  steps : List Step
  expected_result : PyStr
  test_type : PyStr
  test_case_text : PyStr
deriving DecidableEq

/-- `line.strip().lower().startswith((four steps headings))` (line 104). -/
def isStepsHeading (line : PyStr) : Bool :=
  [("## steps").toList, ("## test steps").toList,
    ("# steps").toList, ("# test steps").toList].any
    fun p => pyStartsWith (pyLower (pyStrip line)) p

/-- Index (counting from the given start) of the first steps heading. -/
def findStepsHeadingIdx : Nat → List PyStr → Option Nat
  | _, [] => none
  | i, line :: rest =>
    if isStepsHeading line then some i else findStepsHeadingIdx (i + 1) rest

/-- Index of the first line whose stripped form starts with "1." (the
fallback search of lines 112-116). -/
def findNumberedIdx : Nat → List PyStr → Option Nat
  | _, [] => none
  | i, line :: rest =>
    if pyStartsWith (pyStrip line) (("1.").toList) then some i
    else findNumberedIdx (i + 1) rest

/-- The description accumulation of lines 103-107: every line before the
steps heading contributes `line.strip() + chr(32)`; if no heading exists the
whole tail contributes (the Python loop then completes without breaking). -/
def descAccum : List PyStr → PyStr
  | [] => []
  | line :: rest =>
    if isStepsHeading line then []
    else pyStrip line ++ [' '] ++ descAccum rest

/-- The expected-result marker test of line 134, applied to the
already-stripped line.  Note that because stripped lines starting with a
hash were already skipped at line 130, only the bare "expected result" arm
can ever fire inside the loop. -/
def isExpectedMarker (line : PyStr) : Bool :=
  [("## expected").toList, ("# expected").toList, ("expected result").toList].any
    fun p => pyStartsWith (pyLower line) p

/-- The steps/expected loop of lines 126-146, carrying
`(steps, expected_result, expected_result_found)`. -/
def parseStepsLoop : List Step × PyStr × Bool → List PyStr → List Step × PyStr × Bool
  | st, [] => st
  | (steps, expected, found), rawLine :: rest =>
    let line := pyStrip rawLine
    if line.isEmpty || pyStartsWith line [ '#' ] then
      parseStepsLoop (steps, expected, found) rest
    else if isExpectedMarker line then
      parseStepsLoop (steps, expected, true) rest
    else if found then
      parseStepsLoop (steps, expected ++ line ++ [' '], found) rest
    else
      match splitDotOnce line with
      | some (a, b) =>
        if pyIsDigit (pyStrip a) then
          parseStepsLoop (steps ++ [Step.mk (pyStrip a) (pyStrip b)], expected, found) rest
        else
          parseStepsLoop (steps, expected, found) rest
      | none => parseStepsLoop (steps, expected, found) rest

/-- The negative-test keyword set of line 159. -/
def negativeKeywords : List PyStr :=
  [("negative").toList, ("invalid").toList, ("error").toList,
    ("fail").toList, ("reject").toList]

/-- The edge-test keyword set of line 161. -/
def edgeKeywords : List PyStr :=
  [("edge").toList, ("boundary").toList, ("limit").toList,
    ("max").toList, ("min").toList]

/-- The classification heuristic of lines 155-162. -/
def classifyTestType (title description : PyStr) : PyStr :=
  let text := pyLower (title ++ [' '] ++ description)
  if negativeKeywords.any fun k => pyContains text k then ("negative").toList
  else if edgeKeywords.any fun k => pyContains text k then ("edge").toList
  else ("positive").toList

/-- The `steps_start_index` computation: first the heading search, then the
numbered-line fallback (both over `lines[1:]`, indexing from 1). -/
def mdStepsStart (tailLines : List PyStr) : Option Nat :=
  match findStepsHeadingIdx 1 tailLines with
  | some i => some i
  | none => findNumberedIdx 1 tailLines

/-- `markdown_to_test_case` (lines 83-175).  The surrounding
`try/except` never fires: every embedded operation is total (`lines` is
never empty because `split` always yields at least one piece). -/
def markdown_to_test_case (markdown_text : PyStr) : Option ParsedTestCase :=
  let lines := splitNl (pyStrip markdown_text)
  let title := pyStrip ((lines.headD []).dropWhile fun ch => ch = '#')
  let description := pyStrip (descAccum lines.tail)
  match mdStepsStart lines.tail with
  | none => none
  | some s =>
    let (steps0, expectedRaw, _) := parseStepsLoop ([], [], false) (lines.drop s)
    let expected1 := pyStrip expectedRaw
    let (steps1, expected2) :=
      if expected1.isEmpty && !steps0.isEmpty then
        (steps0.dropLast,
          match steps0.getLast? with
          | some st => st.description
          | none => expected1)
      else (steps0, expected1)
    some
      { title := title, description := description, steps := steps1,
        expected_result := expected2,
        test_type := classifyTestType title description,
        test_case_text := markdown_text }

/-- The header row written at line 23 of `test_case_to_csv`. -/
def csvHeaderRow : List PyStr :=
  [("Step").toList, ("Description").toList, ("Expected Result").toList]

/-- The per-step rows of `test_case_to_csv` (lines 26-32): `enumerate`
starts at 1; rows before the last leave the expected-result column blank. -/
def stepRows (expected : PyStr) (total : Nat) : Nat → List Step → List (List PyStr)
  | _, [] => []
  | i, st :: rest =>
    (if i < total then [st.step, st.description, []]
     else [st.step, st.description, expected]) :: stepRows expected total (i + 1) rest

/-- `test_case_to_csv` (lines 9-34), modelled at row granularity (the
`csv.writer` serialization of each row to a line of text is third-party
glue). -/
def test_case_to_csv (tc : ParsedTestCase) : List (List PyStr) :=
  csvHeaderRow :: stepRows tc.expected_result tc.steps.length 1 tc.steps

/-! ### Markdown parsing and CSV rendering lemmas -/

lemma parseStepsLoop_no_marker :
    ∀ (lines : List PyStr) (steps : List Step),
      (∀ l ∈ lines, isExpectedMarker (pyStrip l) = false) →
      ∃ steps2, parseStepsLoop (steps, [], false) lines = (steps2, [], false) := by
  intro lines
  induction lines with
  | nil =>
    intro steps _
    exact ⟨steps, rfl⟩
  | cons rawLine rest ih =>
    intro steps h
    have hm : isExpectedMarker (pyStrip rawLine) = false :=
      h rawLine (List.mem_cons_self _ _)
    have hrest : ∀ l ∈ rest, isExpectedMarker (pyStrip l) = false :=
      fun l hl => h l (List.mem_cons_of_mem _ hl)
    simp only [parseStepsLoop]
    by_cases h1 : ((pyStrip rawLine).isEmpty || pyStartsWith (pyStrip rawLine) [ '#' ]) = true
    · rw [if_pos h1]
      exact ih steps hrest
    · rw [if_neg h1, hm]
      simp only [Bool.false_eq_true, if_false]
      cases hsp : splitDotOnce (pyStrip rawLine) with
      | none => exact ih steps hrest
      | some p =>
        obtain ⟨a, b⟩ := p
        by_cases hd : pyIsDigit (pyStrip a) = true
        · have hgoal := ih (steps ++ [Step.mk (pyStrip a) (pyStrip b)]) hrest
          simpa [hd] using hgoal
        · have hgoal := ih steps hrest
          simpa [hd] using hgoal

/-- Claim C6: when a markdown block parses with N ≥ 1 numbered steps and no
line of the steps region carries an expected-result marker, the last parsed
step is popped and reclassified: the result has exactly N - 1 steps and its
expected result is the description of the original step N. -/
theorem markdown_expected_fallback
    (md : PyStr) (s : Nat) (steps0 : List Step) (expectedRaw : PyStr)
    (found : Bool) (last : Step)
    (hstart : mdStepsStart (splitNl (pyStrip md)).tail = some s)
    (hloop : parseStepsLoop ([], [], false) ((splitNl (pyStrip md)).drop s)
      = (steps0, expectedRaw, found))
    (hnm : ∀ l ∈ (splitNl (pyStrip md)).drop s, isExpectedMarker (pyStrip l) = false)
    (hlast : steps0.getLast? = some last) :
    ∃ tc, markdown_to_test_case md = some tc ∧
      tc.steps = steps0.dropLast ∧
      tc.steps.length + 1 = steps0.length ∧
      tc.expected_result = last.description := by
  obtain ⟨steps2, hloop2⟩ :=
    parseStepsLoop_no_marker ((splitNl (pyStrip md)).drop s) [] hnm
  rw [hloop] at hloop2
  have hexp : expectedRaw = [] := by
    have h2 := congrArg (fun q => q.2.1) hloop2
    simpa using h2
  have hne : steps0 ≠ [] := by
    intro h0
    rw [h0] at hlast
    simp at hlast
  simp only [markdown_to_test_case, hstart]
  rw [hloop]
  subst hexp
  have hemp : (pyStrip ([] : PyStr)).isEmpty = true := rfl
  have hnemp : (!steps0.isEmpty) = true := by
    cases steps0 with
    | nil => exact absurd rfl hne
    | cons a l => rfl
  have hcond : ((pyStrip ([] : PyStr)).isEmpty && !steps0.isEmpty) = true := by
    rw [hemp, hnemp]
    rfl
  simp only [hcond, if_pos, hlast]
  refine ⟨_, rfl, rfl, ?_, rfl⟩
  have hdl := List.length_dropLast steps0
  have hpos : 1 ≤ steps0.length := by
    cases steps0 with
    | nil => exact absurd rfl hne
    | cons a l => simp
  simp only [hdl]
  omega

/-- Witness for C6: a block with three numbered steps and no expected-result
marker parses to two steps, with step 3's text as the expected result. -/
theorem markdown_expected_fallback_witness :
    ∃ tc, markdown_to_test_case
        (("# Login Test\nSome description\n## Steps\n1. Open page\n2. Enter data\n3. See result").toList)
        = some tc ∧
      tc.steps = [Step.mk ("1").toList ("Open page").toList,
        Step.mk ("2").toList ("Enter data").toList,
        Step.mk ("3").toList ("See result").toList].dropLast ∧
      tc.steps.length + 1
        = [Step.mk ("1").toList ("Open page").toList,
        Step.mk ("2").toList ("Enter data").toList,
        Step.mk ("3").toList ("See result").toList].length ∧
      tc.expected_result = (Step.mk ("3").toList ("See result").toList).description :=
  markdown_expected_fallback
    (("# Login Test\nSome description\n## Steps\n1. Open page\n2. Enter data\n3. See result").toList)
    2
    [Step.mk ("1").toList ("Open page").toList,
      Step.mk ("2").toList ("Enter data").toList,
      Step.mk ("3").toList ("See result").toList]
    [] false (Step.mk ("3").toList ("See result").toList)
    (by decide) (by decide) (by decide) (by decide)

/-- Claim C7: every parsed test case is classified by the keyword heuristic:
default "positive", "negative" when the lower-cased title+description
contains a negative keyword, otherwise "edge" when it contains an edge
keyword; the negative check runs first, so a text containing both "invalid"
and "boundary" classifies as "negative", not "edge". -/
theorem classification_precedence
    (md : PyStr) (tc : ParsedTestCase) (title description : PyStr)
    (hp : markdown_to_test_case md = some tc) :
    tc.test_type = classifyTestType tc.title tc.description ∧
    ((negativeKeywords.any fun k =>
        pyContains (pyLower (title ++ [' '] ++ description)) k) = true →
      classifyTestType title description = ("negative").toList) ∧
    ((negativeKeywords.any fun k =>
        pyContains (pyLower (title ++ [' '] ++ description)) k) = false →
      (edgeKeywords.any fun k =>
        pyContains (pyLower (title ++ [' '] ++ description)) k) = true →
      classifyTestType title description = ("edge").toList) ∧
    ((negativeKeywords.any fun k =>
        pyContains (pyLower (title ++ [' '] ++ description)) k) = false →
      (edgeKeywords.any fun k =>
        pyContains (pyLower (title ++ [' '] ++ description)) k) = false →
      classifyTestType title description = ("positive").toList) ∧
    (pyContains (pyLower (title ++ [' '] ++ description)) (("invalid").toList) = true →
      pyContains (pyLower (title ++ [' '] ++ description)) (("boundary").toList) = true →
      classifyTestType title description = ("negative").toList) := by
  refine ⟨?_, ?_, ?_, ?_, ?_⟩
  · simp only [markdown_to_test_case] at hp
    rcases hms : mdStepsStart (splitNl (pyStrip md)).tail with _ | s
    · rw [hms] at hp
      simp at hp
    · rw [hms] at hp
      simp only at hp
      rcases hpl : parseStepsLoop ([], [], false) ((splitNl (pyStrip md)).drop s)
        with ⟨steps0, expectedRaw, found⟩
      rw [hpl] at hp
      simp only at hp
      by_cases hif : ((pyStrip expectedRaw).isEmpty && !steps0.isEmpty) = true
      · rw [if_pos hif] at hp
        have h0 := hp.symm
        injection h0 with h1
        rw [h1]
      · rw [if_neg hif] at hp
        have h0 := hp.symm
        injection h0 with h1
        rw [h1]
  · intro hneg
    simp only [classifyTestType]
    rw [if_pos hneg]
  · intro hneg hedge
    simp only [classifyTestType]
    rw [if_neg (by rw [hneg]; simp), if_pos hedge]
  · intro hneg hedge
    simp only [classifyTestType]
    rw [if_neg (by rw [hneg]; simp), if_neg (by rw [hedge]; simp)]
  · intro hinv _
    simp only [classifyTestType]
    rw [if_pos (by
      refine List.any_eq_true.mpr ⟨("invalid").toList, ?_, hinv⟩
      simp [negativeKeywords])]

/-- Witness for C7 on a title containing both "invalid" and "boundary". -/
theorem classification_precedence_witness :
    markdown_to_test_case
        (("# Invalid boundary check\ndesc\n## Steps\n1. Do a\n2. Do b").toList)
      = some (ParsedTestCase.mk ("Invalid boundary check").toList ("desc").toList
          [Step.mk ("1").toList ("Do a").toList]
          ("Do b").toList ("negative").toList
          (("# Invalid boundary check\ndesc\n## Steps\n1. Do a\n2. Do b").toList)) ∧
    (pyContains (pyLower (("Invalid boundary check").toList ++ [' '] ++ ("desc").toList))
        (("invalid").toList) = true →
      pyContains (pyLower (("Invalid boundary check").toList ++ [' '] ++ ("desc").toList))
        (("boundary").toList) = true →
      classifyTestType ("Invalid boundary check").toList ("desc").toList
        = ("negative").toList) :=
  ⟨by decide,
    (classification_precedence
      (("# Invalid boundary check\ndesc\n## Steps\n1. Do a\n2. Do b").toList)
      (ParsedTestCase.mk ("Invalid boundary check").toList ("desc").toList
        [Step.mk ("1").toList ("Do a").toList]
        ("Do b").toList ("negative").toList
        (("# Invalid boundary check\ndesc\n## Steps\n1. Do a\n2. Do b").toList))
      ("Invalid boundary check").toList ("desc").toList
      (by decide)).2.2.2.2⟩

lemma stepRows_spec (expected : PyStr) (total : Nat) :
    ∀ (steps : List Step) (i : Nat),
      (stepRows expected total i steps).length = steps.length ∧
      ∀ j, j < steps.length →
        ((stepRows expected total i steps).getD j []).getD 2 []
          = if i + j < total then [] else expected := by
  intro steps
  induction steps with
  | nil =>
    intro i
    refine ⟨rfl, ?_⟩
    intro j hj
    simp at hj
  | cons st rest ih =>
    intro i
    refine ⟨by simp only [stepRows, List.length_cons, (ih (i + 1)).1], ?_⟩
    intro j hj
    cases j with
    | zero =>
      simp only [stepRows, List.getD_cons_zero, Nat.add_zero]
      by_cases hlt : i < total
      · rw [if_pos hlt, if_pos hlt]
        rfl
      · rw [if_neg hlt, if_neg hlt]
        rfl
    | succ j2 =>
      simp only [stepRows, List.getD_cons_succ]
      have := (ih (i + 1)).2 j2 (by simpa using Nat.lt_of_succ_lt_succ hj)
      rw [this]
      have harith : i + 1 + j2 = i + (j2 + 1) := by omega
      rw [harith]

/-- Claim C8: rendering a test case with k ≥ 1 steps to CSV produces a
header row plus exactly k data rows, one per step, and the expected-result
column (index 2) is blank in every data row except the last, which carries
the test case's expected result. -/
theorem csv_expected_only_last_row (tc : ParsedTestCase) (k : Nat)
    (hk : tc.steps.length = k) (hpos : 1 ≤ k) :
    (test_case_to_csv tc).length = k + 1 ∧
    test_case_to_csv tc
      = csvHeaderRow :: stepRows tc.expected_result tc.steps.length 1 tc.steps ∧
    (stepRows tc.expected_result tc.steps.length 1 tc.steps).length = k ∧
    ∀ i, i < k →
      ((stepRows tc.expected_result tc.steps.length 1 tc.steps).getD i []).getD 2 []
        = if i + 1 = k then tc.expected_result else [] := by
  have hspec := stepRows_spec tc.expected_result tc.steps.length tc.steps 1
  refine ⟨?_, rfl, ?_, ?_⟩
  · have h1 := hspec.1
    simp only [test_case_to_csv, List.length_cons]
    omega
  · rw [hspec.1, hk]
  · intro i hi
    have hrow := hspec.2 i (by omega)
    rw [hrow, hk]
    by_cases hlast : i + 1 = k
    · rw [if_neg (show ¬(1 + i < k) by omega), if_pos hlast]
    · rw [if_pos (show 1 + i < k by omega), if_neg hlast]

/-- Witness for C8 on a concrete three-step test case. -/
theorem csv_expected_only_last_row_witness :
    ((ParsedTestCase.mk ("T").toList ("d").toList
        [Step.mk ("1").toList ("a").toList, Step.mk ("2").toList ("b").toList,
          Step.mk ("3").toList ("c").toList]
        ("exp").toList ("positive").toList []).steps.length = 3 ∧ 1 ≤ 3) ∧
    (test_case_to_csv (ParsedTestCase.mk ("T").toList ("d").toList
        [Step.mk ("1").toList ("a").toList, Step.mk ("2").toList ("b").toList,
          Step.mk ("3").toList ("c").toList]
        ("exp").toList ("positive").toList [])).length = 3 + 1 ∧
    ∀ i, i < 3 →
      ((stepRows (ParsedTestCase.mk ("T").toList ("d").toList
          [Step.mk ("1").toList ("a").toList, Step.mk ("2").toList ("b").toList,
            Step.mk ("3").toList ("c").toList]
          ("exp").toList ("positive").toList []).expected_result
          (ParsedTestCase.mk ("T").toList ("d").toList
          [Step.mk ("1").toList ("a").toList, Step.mk ("2").toList ("b").toList,
            Step.mk ("3").toList ("c").toList]
          ("exp").toList ("positive").toList []).steps.length 1
          (ParsedTestCase.mk ("T").toList ("d").toList
          [Step.mk ("1").toList ("a").toList, Step.mk ("2").toList ("b").toList,
            Step.mk ("3").toList ("c").toList]
          ("exp").toList ("positive").toList []).steps).getD i []).getD 2 []
        = if i + 1 = 3 then (ParsedTestCase.mk ("T").toList ("d").toList
          [Step.mk ("1").toList ("a").toList, Step.mk ("2").toList ("b").toList,
            Step.mk ("3").toList ("c").toList]
          ("exp").toList ("positive").toList []).expected_result else [] := by
  refine ⟨⟨by decide, by omega⟩, ?_, ?_⟩
  · exact (csv_expected_only_last_row (ParsedTestCase.mk ("T").toList ("d").toList
      [Step.mk ("1").toList ("a").toList, Step.mk ("2").toList ("b").toList,
        Step.mk ("3").toList ("c").toList]
      ("exp").toList ("positive").toList []) 3 (by decide) (by omega)).1
  · exact (csv_expected_only_last_row (ParsedTestCase.mk ("T").toList ("d").toList
      [Step.mk ("1").toList ("a").toList, Step.mk ("2").toList ("b").toList,
        Step.mk ("3").toList ("c").toList]
      ("exp").toList ("positive").toList []) 3 (by decide) (by omega)).2.2.2

/-! ### Revision-loop agent (src/test_generation_agent.py)

The ChatOpenAI model is external: it is an oracle from the role-tagged
message list to the assistant response text.  Quantifying over the oracle
covers "any feedback content".  The LangGraph wiring (lines 108-125):
entry extract_requirements → generate_test_scenarios → generate_test_cases
→ conditional(should_continue: END | collect_feedback) → apply_feedback →
generate_test_cases. -/

inductive Role where
  | system
  | human
deriving DecidableEq

abbrev Message := Role × String

abbrev LLM := List Message → String

/-- Python `s.strip()` on a whole string. -/
def pyStripStr (s : String) : String := String.mk (pyStrip s.data)

def REQUIREMENT_EXTRACTION_PROMPT : String :=
  "\nYou are a senior QA engineer. Given the following user story, extract key functional and non-functional requirements.\n"

def TEST_SCENARIO_GENERATION_PROMPT : String :=
  "\nYou are a QA strategist. Based on the extracted requirements, generate a list of test scenarios that include standard, edge, and negative paths.\n"

def TEST_CASE_GENERATION_PROMPT : String :=
  "\nYou are an experienced QA test writer. Write detailed test cases for each scenario including title, objective, preconditions, steps, expected results, and test type (positive/negative/edge).\nReturn the output in CSV format with the following columns:\nTitle, Objective, Preconditions, Steps, Expected Result, Test Type\n"

def FEEDBACK_PROMPT : String :=
  "\nYou are a QA reviewer. Provide feedback on the generated test cases. Identify any missing scenarios, redundancy, or opportunities to improve clarity or coverage.\n"

/-- The `AgentState` TypedDict of lines 22-30.  `revision_number` is a
Python int, modelled as `Int`. -/
structure AgentState1 where
  user_story : String
  extracted_requirements : String
  test_scenarios : String
  test_cases : String
  feedback : String
  revision_number : Int
  max_revisions : Int
  test_cases_csv : String
deriving DecidableEq

/-- `extract_requirements_node` (lines 52-58). -/
def extract_requirements_node (llm : LLM) (s : AgentState1) : AgentState1 :=
  { s with
    extracted_requirements :=
      llm [(Role.system, REQUIREMENT_EXTRACTION_PROMPT), (Role.human, s.user_story)] }

/-- `generate_test_scenarios_node` (lines 60-66). -/
def generate_test_scenarios_node (llm : LLM) (s : AgentState1) : AgentState1 :=
  { s with
    test_scenarios :=
      llm [(Role.system, TEST_SCENARIO_GENERATION_PROMPT),
        (Role.human, s.extracted_requirements)] }

/-- `generate_test_cases_node` (lines 68-79): one test-case-generation LLM
call; stores the stripped response and increments `revision_number`
(`state.get(..., 1) + 1`; the field always carries a value here since every
initial state supplies one). -/
def generate_test_cases_node (llm : LLM) (s : AgentState1) : AgentState1 :=
  let response := llm [(Role.system, TEST_CASE_GENERATION_PROMPT),
    (Role.human, s.test_scenarios)]
  let csvOut := pyStripStr response
  { s with
    test_cases := csvOut
    test_cases_csv := csvOut
    revision_number := s.revision_number + 1 }

/-- `collect_feedback_node` (lines 81-87). -/
def collect_feedback_node (llm : LLM) (s : AgentState1) : AgentState1 :=
  { s with
    feedback :=
      llm [(Role.system, FEEDBACK_PROMPT), (Role.human, s.test_cases)] }

/-- `apply_feedback_node` (lines 89-100): a second test-case-generation LLM
call (same TEST_CASE_GENERATION_PROMPT), also incrementing
`revision_number`. -/
def apply_feedback_node (llm : LLM) (s : AgentState1) : AgentState1 :=
  let response := llm [(Role.system, TEST_CASE_GENERATION_PROMPT),
    (Role.human, "Previous Test Cases:\n" ++ s.test_cases ++ "\n\nFeedback:\n"
      ++ s.feedback)]
  let csvOut := pyStripStr response
  { s with
    test_cases := csvOut
    test_cases_csv := csvOut
    revision_number := s.revision_number + 1 }

/-- The two conditional-edge targets of line 120. -/
inductive LoopTarget where
  | endTarget
  | collect_feedback
deriving DecidableEq

/-- `should_continue` (lines 102-105). -/
def should_continue (s : AgentState1) : LoopTarget :=
  if s.revision_number > s.max_revisions then LoopTarget.endTarget
  else LoopTarget.collect_feedback

/-- The cycle generate_test_cases → (END | collect_feedback →
apply_feedback → generate_test_cases), with fuel bounding the number of
iterations considered; returns the final state and the number of
test-case-generation LLM calls (by `generate_test_cases_node` and
`apply_feedback_node`), or `none` if the fuel ran out before END — so a
`some` result is a proof that the loop halted. -/
def runRevisionLoop (llm : LLM) : Nat → AgentState1 → Option (AgentState1 × Nat)
  | 0, _ => none
  | fuel + 1, s =>
    let s1 := generate_test_cases_node llm s
    match should_continue s1 with
    | LoopTarget.endTarget => some (s1, 1)
    | LoopTarget.collect_feedback =>
      let s2 := collect_feedback_node llm s1
      let s3 := apply_feedback_node llm s2
      match runRevisionLoop llm fuel s3 with
      | none => none
      | some (s4, n) => some (s4, n + 2)

/-- The full graph run: the two prelude nodes, then the revision cycle. -/
def runAgent (llm : LLM) (fuel : Nat) (s0 : AgentState1) :
    Option (AgentState1 × Nat) :=
  runRevisionLoop llm fuel
    (generate_test_scenarios_node llm (extract_requirements_node llm s0))

/-- Claim C1: `should_continue` sends the loop to END exactly when
`revision_number > max_revisions` (else to collect_feedback), each Generate
increments `revision_number`, and for `max_revisions = 2` (starting at
`revision_number = 1`, any LLM responses) the run halts at END with at most
3 test-case-generation LLM calls — within 2 loop iterations. -/
theorem revision_loop_bound (llm : LLM) (s0 s : AgentState1)
    (h1 : s0.revision_number = 1) (h2 : s0.max_revisions = 2) :
    (should_continue s = LoopTarget.endTarget
      ↔ s.revision_number > s.max_revisions) ∧
    (generate_test_cases_node llm s).revision_number = s.revision_number + 1 ∧
    ∃ sf n, runAgent llm 2 s0 = some (sf, n) ∧ n ≤ 3 ∧
      should_continue sf = LoopTarget.endTarget := by
  refine ⟨?_, rfl, ?_⟩
  · simp only [should_continue]
    by_cases hc : s.revision_number > s.max_revisions
    · simp [hc]
    · simp [hc]
  · have hA : (generate_test_scenarios_node llm
        (extract_requirements_node llm s0)).revision_number = 1 := h1
    have hB : (generate_test_scenarios_node llm
        (extract_requirements_node llm s0)).max_revisions = 2 := h2
    set sB := generate_test_scenarios_node llm (extract_requirements_node llm s0)
      with hsB
    have hg1rev : (generate_test_cases_node llm sB).revision_number = 2 := by
      simp only [generate_test_cases_node, hA]
      rfl
    have hg1max : (generate_test_cases_node llm sB).max_revisions = 2 := hB
    have hsc1 : should_continue (generate_test_cases_node llm sB)
        = LoopTarget.collect_feedback := by
      simp only [should_continue, hg1rev, hg1max]
      norm_num
    set sC := apply_feedback_node llm
      (collect_feedback_node llm (generate_test_cases_node llm sB)) with hsC
    have hCrev : sC.revision_number = 3 := by
      simp only [hsC, apply_feedback_node, collect_feedback_node, hg1rev]
      rfl
    have hCmax : sC.max_revisions = 2 := hg1max
    have hg2rev : (generate_test_cases_node llm sC).revision_number = 4 := by
      simp only [generate_test_cases_node, hCrev]
      rfl
    have hg2max : (generate_test_cases_node llm sC).max_revisions = 2 := hCmax
    have hsc2 : should_continue (generate_test_cases_node llm sC)
        = LoopTarget.endTarget := by
      simp only [should_continue, hg2rev, hg2max]
      norm_num
    refine ⟨generate_test_cases_node llm sC, 3, ?_, by omega, hsc2⟩
    simp only [runAgent, ← hsB, runRevisionLoop, hsc1, ← hsC, hsc2]

/-- Witness for C1 with a constant LLM oracle and a concrete initial
state. -/
theorem revision_loop_bound_witness :
    ((AgentState1.mk "story" "" "" "" "" 1 2 "").revision_number = 1 ∧
      (AgentState1.mk "story" "" "" "" "" 1 2 "").max_revisions = 2) ∧
    ∃ sf n, runAgent (fun _ => "ok") 2 (AgentState1.mk "story" "" "" "" "" 1 2 "")
        = some (sf, n) ∧ n ≤ 3 ∧
      should_continue sf = LoopTarget.endTarget :=
  ⟨⟨rfl, rfl⟩,
    (revision_loop_bound (fun _ => "ok") (AgentState1.mk "story" "" "" "" "" 1 2 "")
      (AgentState1.mk "story" "" "" "" "" 1 2 "") rfl rfl).2.2⟩

/-! ### qa_agent_graph (src/test_generation_agent/langgraph/qa_agent_graph.py)

The ChatOpenAI call of each node is an oracle from the (deterministic,
state-determined) prompt to the response text; since every claim about this
graph quantifies over all responses, the prompt templating
(app/prompts/test_case_prompts.py) and the model call are folded into one
oracle `AgentState2 → String` per node.  `json.loads` is the Python
standard library, modelled as a parse oracle whose `none` is
`json.JSONDecodeError`; the typed payloads carry the `.get(..., default)`
projections the code applies to the decoded JSON.  `datetime.now()` default
timestamps are opaque wall-clock values, modelled as the empty string. -/

structure UserStoryRecord where
  story_id : String
  project_id : String
  title : String
  description : String
  embedding : Option Vec
  created_at : String
deriving DecidableEq

structure TestCaseRecord where
  story_id : String
  test_case_id : Option String
  title : String
  description : String
  steps : List (String × String)
  test_case_text : String
  test_case_csv : Option String
  generated_at : String
deriving DecidableEq

/-- One decoded test-case JSON object, after the `.get` defaults of lines
169-173 (steps entries are the {action, expected} pairs). -/
structure TCJson where
  title : String
  description : String
  steps : List (String × String)
  test_case_text : String
  test_case_csv : String
deriving DecidableEq

/-- The decoded analysis JSON (lines 94-99 list its four keys). -/
structure Analysis where
  key_features : List String
  user_roles : List String
  acceptance_criteria : List String
  edge_cases : List String
deriving DecidableEq

inductive MsgRole where
  | system
  | human
  | assistant
deriving DecidableEq

abbrev Message2 := MsgRole × String

/-- The `AgentState` TypedDict of lines 36-43.  It has no error field. -/
structure AgentState2 where
  messages : List Message2
  user_story : UserStoryRecord
  similar_stories : List UserStoryRecord
  similar_test_cases : List TestCaseRecord
  analysis : Option Analysis
  test_cases : List TestCaseRecord
deriving DecidableEq

/-- `analyze_user_story` (lines 53-112): invoke the LLM; on a JSON decode
failure fall back to the empty analysis dict; append the exchange to
`messages`. -/
def analyze_user_story (llmA : AgentState2 → String)
    (parseA : String → Option Analysis) (s : AgentState2) : AgentState2 :=
  let response := llmA s
  let analysis :=
    match parseA response with
    | some a => a
    | none => Analysis.mk [] [] [] []
  { s with
    messages := s.messages ++
      [(MsgRole.human, "Please analyze this user story: " ++ s.user_story.title),
        (MsgRole.assistant, response)]
    analysis := some analysis }

/-- `generate_test_cases` (lines 114-190): invoke the LLM; on JSON decode
success build `TestCaseRecord`s from the decoded objects; on
`json.JSONDecodeError` log and set `test_cases = []`; either way append the
exchange to `messages` and return the updated state — no error is recorded
anywhere (`AgentState2` has no error field). -/
def generate_test_cases (llmG : AgentState2 → String)
    (parseTC : String → Option (List TCJson)) (s : AgentState2) : AgentState2 :=
  let response := llmG s
  let test_cases :=
    match parseTC response with
    | some tcs => tcs.map fun tc =>
        TestCaseRecord.mk s.user_story.story_id none tc.title tc.description
          tc.steps tc.test_case_text (some tc.test_case_csv) ""
    | none => []
  { s with
    messages := s.messages ++
      [(MsgRole.human, "Please generate test cases based on the analysis."),
        (MsgRole.assistant, response)]
    test_cases := test_cases }

/-- `process_user_story_with_langgraph` (lines 226-269): run the two-node
graph analyze_user_story → generate_test_cases → END on a fresh state and
return the final test cases with the summary string. -/
def process_user_story_with_langgraph (llmA llmG : AgentState2 → String)
    (parseA : String → Option Analysis) (parseTC : String → Option (List TCJson))
    (user_story : UserStoryRecord) (similar_stories : List UserStoryRecord)
    (similar_test_cases : List TestCaseRecord) : List TestCaseRecord × String :=
  let s0 := AgentState2.mk [] user_story similar_stories similar_test_cases none []
  let final := generate_test_cases llmG parseTC (analyze_user_story llmA parseA s0)
  (final.test_cases,
    "Generated " ++ toString final.test_cases.length
      ++ " test cases for user story: " ++ user_story.title)

/-- Counterexample to C2: with an un-parseable generation response
(`json.loads` fails) the caller receives
`([], "Generated 0 test cases for user story: Login")` — byte-identical to
the output of a fully successful run whose response parsed to the empty
JSON array.  No error is recorded (the state type has no error field) and
no error indicator reaches the caller. -/
theorem generate_parse_failure_not_reported :
    process_user_story_with_langgraph (fun _ => "not json") (fun _ => "no json here")
        (fun _ => none) (fun _ => none)
        (UserStoryRecord.mk "S1" "P1" "Login" "desc" none "") [] []
      = ([], "Generated 0 test cases for user story: Login") ∧
    process_user_story_with_langgraph (fun _ => "not json") (fun _ => "[]")
        (fun _ => none) (fun r => if r = "[]" then some [] else none)
        (UserStoryRecord.mk "S1" "P1" "Login" "desc" none "") [] []
      = ([], "Generated 0 test cases for user story: Login") := by
  exact ⟨by decide, by decide⟩

/-- Claim C2 as amended: when the generation response fails to decode,
`generate_test_cases` sets `test_cases = []` and only logs; the state has no
error field, and the caller of `process_user_story_with_langgraph` receives
`([], "Generated 0 test cases for user story: <title>")` — exactly the
output of a successful run that decoded zero test cases — so no explicit
error indicator exists. -/
theorem generate_parse_failure_amended
    (llmA llmG llmG2 : AgentState2 → String)
    (parseA : String → Option Analysis)
    (parseTC parseTC2 : String → Option (List TCJson))
    (user_story : UserStoryRecord) (similar_stories : List UserStoryRecord)
    (similar_test_cases : List TestCaseRecord)
    (hfail : parseTC (llmG (analyze_user_story llmA parseA
      (AgentState2.mk [] user_story similar_stories similar_test_cases none [])))
      = none)
    (hsucc : parseTC2 (llmG2 (analyze_user_story llmA parseA
      (AgentState2.mk [] user_story similar_stories similar_test_cases none [])))
      = some []) :
    process_user_story_with_langgraph llmA llmG parseA parseTC
        user_story similar_stories similar_test_cases
      = ([], "Generated 0 test cases for user story: " ++ user_story.title) ∧
    process_user_story_with_langgraph llmA llmG2 parseA parseTC2
        user_story similar_stories similar_test_cases
      = process_user_story_with_langgraph llmA llmG parseA parseTC
        user_story similar_stories similar_test_cases := by
  have hstr : (("Generated " ++ toString (0 : Nat)) ++ " test cases for user story: ")
      = "Generated 0 test cases for user story: " := by decide
  have h1 : process_user_story_with_langgraph llmA llmG parseA parseTC
      user_story similar_stories similar_test_cases
      = ([], "Generated 0 test cases for user story: " ++ user_story.title) := by
    have htc : (generate_test_cases llmG parseTC (analyze_user_story llmA parseA
        (AgentState2.mk [] user_story similar_stories similar_test_cases none []))).test_cases
        = [] := by
      simp only [generate_test_cases, hfail]
    simp only [process_user_story_with_langgraph, htc, List.length_nil]
    rw [hstr]
  have h2 : process_user_story_with_langgraph llmA llmG2 parseA parseTC2
      user_story similar_stories similar_test_cases
      = ([], "Generated 0 test cases for user story: " ++ user_story.title) := by
    have htc : (generate_test_cases llmG2 parseTC2 (analyze_user_story llmA parseA
        (AgentState2.mk [] user_story similar_stories similar_test_cases none []))).test_cases
        = [] := by
      simp only [generate_test_cases, hsucc]
      rfl
    simp only [process_user_story_with_langgraph, htc, List.length_nil]
    rw [hstr]
  exact ⟨h1, by rw [h1, h2]⟩

/-- Witness for the amended C2 at concrete oracles. -/
theorem generate_parse_failure_amended_witness :
    ((fun (_ : String) => (none : Option (List TCJson)))
        ((fun _ => "no json here") (analyze_user_story (fun _ => "not json")
          (fun _ => none)
          (AgentState2.mk [] (UserStoryRecord.mk "S1" "P1" "Login" "desc" none "")
            [] [] none []))) = none ∧
      (fun (r : String) => if r = "[]" then some ([] : List TCJson) else none)
        ((fun _ => "[]") (analyze_user_story (fun _ => "not json")
          (fun _ => none)
          (AgentState2.mk [] (UserStoryRecord.mk "S1" "P1" "Login" "desc" none "")
            [] [] none []))) = some []) ∧
    process_user_story_with_langgraph (fun _ => "not json") (fun _ => "no json here")
        (fun _ => none) (fun _ => none)
        (UserStoryRecord.mk "S1" "P1" "Login" "desc" none "") [] []
      = ([], "Generated 0 test cases for user story: "
          ++ (UserStoryRecord.mk "S1" "P1" "Login" "desc" none "").title) := by
  refine ⟨⟨rfl, by norm_num⟩, ?_⟩
  exact (generate_parse_failure_amended (fun _ => "not json") (fun _ => "no json here")
    (fun _ => "[]") (fun _ => none) (fun _ => none)
    (fun r => if r = "[]" then some [] else none)
    (UserStoryRecord.mk "S1" "P1" "Login" "desc" none "") [] []
    rfl (by norm_num)).1

/-! ### Vector store (app/services/vector_store.py)

The stored user-stories collection is a list of (point id, vector, payload)
triples as written by `store_user_story`.  The backend engine's
nearest-neighbour search (Qdrant `client.search` / Weaviate
`with_near_vector`) returns the stored points ordered by descending
backend-native score, truncated to `limit`; the scoring function (cosine
similarity resp. certainty) is an engine-internal oracle parameter.  The
`embedding_service.embed_user_story` call of the lazy-embedding branch is
an oracle `(title, description) → vector`; Python's `if not
user_story.embedding` treats both `None` and the empty list as missing.
(The `UserStory` model class the file imports does not exist in
`data_models.py`; its field set is exactly that of `UserStoryRecord`, which
stands in for it here.) -/

/-- The payload dict written for a story point (lines 100-106 / 400-406). -/
structure StoryPayload where
  story_id : String
  project_id : String
  title : String
  description : String
  created_at : String
deriving DecidableEq

/-- One result dict of `find_similar_stories` (payload plus
`similarity_score`). -/
structure StoryResult where
  story_id : String
  project_id : String
  title : String
  description : String
  created_at : String
  similarity_score : Rat
deriving DecidableEq

/-- Insert into a score-descending list (backend-internal ordering). -/
def insertDesc {α : Type} (x : α × Rat) : List (α × Rat) → List (α × Rat)
  | [] => [x]
  | y :: rest => if y.2 < x.2 then x :: y :: rest else y :: insertDesc x rest

/-- Sort by descending score (backend-internal ordering). -/
def sortDesc {α : Type} : List (α × Rat) → List (α × Rat)
  | [] => []
  | x :: rest => insertDesc x (sortDesc rest)

/-- The engine's top-`limit` nearest-neighbour search over the stored
points: score every stored vector against the query, order by descending
score, truncate. -/
def nnSearch (score : Vec → Vec → Rat) (points : List (String × Vec × StoryPayload))
    (queryVec : Vec) (limit : Nat) : List (StoryPayload × Rat) :=
  (sortDesc (points.map fun p => (p.2.2, score queryVec p.2.1))).take limit

/-- A concrete engine scoring oracle for closed instances (the backend
scale does not matter to any claim, only which points come back). -/
def constScore (_ _ : Vec) : Rat := 1

/-- The query vector: the story's embedding, or (when it is `None` or the
empty, falsy list) the lazily computed `embed_user_story(title,
description)`. -/
def storyQueryVec (embedOracle : String → String → Vec)
    (us : UserStoryRecord) : Vec :=
  match us.embedding with
  | some v => if v = [] then embedOracle us.title us.description else v
  | none => embedOracle us.title us.description

/-- `QdrantVectorStore.find_similar_stories` (lines 158-177): run the
search and return each hit's payload with its score appended — there is no
filtering of any kind. -/
def qdrant_find_similar_stories (score : Vec → Vec → Rat)
    (embedOracle : String → String → Vec)
    (points : List (String × Vec × StoryPayload)) (us : UserStoryRecord)
    (limit : Nat) : List StoryResult :=
  let qv := storyQueryVec embedOracle us
  (nnSearch score points qv limit).map fun pr =>
    StoryResult.mk pr.1.story_id pr.1.project_id pr.1.title pr.1.description
      pr.1.created_at pr.2

/-- The result-processing loop of `WeaviateVectorStore.find_similar_stories`
(lines 494-513): skip any hit whose `story_id` equals the query story's id,
and attach the certainty as `similarity_score`. -/
def processWeaviateStories (qid : String) :
    List (StoryPayload × Rat) → List StoryResult
  | [] => []
  | (st, cert) :: rest =>
    if st.story_id = qid then processWeaviateStories qid rest
    else StoryResult.mk st.story_id st.project_id st.title st.description
      st.created_at cert :: processWeaviateStories qid rest

/-- `WeaviateVectorStore.find_similar_stories` (lines 467-521). -/
def weaviate_find_similar_stories (score : Vec → Vec → Rat)
    (embedOracle : String → String → Vec)
    (objects : List (String × Vec × StoryPayload)) (us : UserStoryRecord)
    (limit : Nat) : List StoryResult :=
  let qv := storyQueryVec embedOracle us
  processWeaviateStories us.story_id (nnSearch score objects qv limit)

lemma processWeaviateStories_no_self (qid : String) :
    ∀ (l : List (StoryPayload × Rat)) (r : StoryResult),
      r ∈ processWeaviateStories qid l → r.story_id ≠ qid := by
  intro l
  induction l with
  | nil =>
    intro r hr
    cases hr
  | cons p rest ih =>
    intro r hr
    obtain ⟨st, cert⟩ := p
    by_cases hq : st.story_id = qid
    · rw [processWeaviateStories, if_pos hq] at hr
      exact ih r hr
    · rw [processWeaviateStories, if_neg hq] at hr
      rcases List.mem_cons.mp hr with h | h
      · rw [h]
        exact hq
      · exact ih r h

/-- Counterexample to C3: the Qdrant backend performs no self-match
filtering — with the persisted story S1 as the sole stored point and a
query using S1's own embedding, `find_similar_stories` returns S1 itself. -/
theorem qdrant_returns_query_story :
    qdrant_find_similar_stories constScore (fun _ _ => [])
        [("S1", [1, 0], StoryPayload.mk "S1" "P1" "T" "D" "")]
        (UserStoryRecord.mk "S1" "P1" "T" "D" (some [1, 0]) "") 3
      = [StoryResult.mk "S1" "P1" "T" "D" "" 1] ∧
    (UserStoryRecord.mk "S1" "P1" "T" "D" (some [1, 0]) "").story_id = "S1" := by
  exact ⟨by decide, rfl⟩

/-- Claim C3 as amended: the Weaviate backend's `find_similar_stories`
never returns an entry whose `story_id` equals the query story's own id
(explicit ID filtering); the Qdrant backend has no such suppression. -/
theorem weaviate_self_match_suppression (score : Vec → Vec → Rat)
    (embedOracle : String → String → Vec)
    (objects : List (String × Vec × StoryPayload)) (us : UserStoryRecord)
    (limit : Nat) (r : StoryResult)
    (hr : r ∈ weaviate_find_similar_stories score embedOracle objects us limit) :
    r.story_id ≠ us.story_id := by
  exact processWeaviateStories_no_self us.story_id _ r hr

/-- Witness for the amended C3: a two-story store where the query story S1
is suppressed and the other story S2 is returned. -/
theorem weaviate_self_match_suppression_witness :
    (StoryResult.mk "S2" "P1" "T2" "D2" "" 1
        ∈ weaviate_find_similar_stories constScore (fun _ _ => [])
          [("S1", [1, 0], StoryPayload.mk "S1" "P1" "T" "D" ""),
            ("S2", [1, 0], StoryPayload.mk "S2" "P1" "T2" "D2" "")]
          (UserStoryRecord.mk "S1" "P1" "T" "D" (some [1, 0]) "") 3) ∧
    (StoryResult.mk "S2" "P1" "T2" "D2" "" 1).story_id
      ≠ (UserStoryRecord.mk "S1" "P1" "T" "D" (some [1, 0]) "").story_id :=
  ⟨by decide,
    weaviate_self_match_suppression constScore (fun _ _ => [])
      [("S1", [1, 0], StoryPayload.mk "S1" "P1" "T" "D" ""),
        ("S2", [1, 0], StoryPayload.mk "S2" "P1" "T2" "D2" "")]
      (UserStoryRecord.mk "S1" "P1" "T" "D" (some [1, 0]) "") 3
      (StoryResult.mk "S2" "P1" "T2" "D2" "" 1) (by decide)⟩

end TAI3
